import Mathlib

/-!
Verification of ProgramTrack (src/app.py): a CSV-backed program registry,
per-program member stores, bulk CSV import, and a PDF receipt generator.
Python dict rows are embedded as Lean structures; the ambient clock
(datetime.now) is passed explicitly; file persistence is modelled by the
returned table, since every mutator in app.py rewrites the whole table
from its in-memory row list, so list equality coincides with file-content
equality.
-/

/-- Whitespace test of the Python strip method, restricted to the ASCII
whitespace characters (the ids and names handled by app.py contain no
exotic unicode whitespace). -/
def isSpaceChar (c : Char) : Bool :=
  c == ' ' || c == '\t' || c == '\n' || c == '\r' || c == '\x0b' || c == '\x0c'

/-- Embeds the Python strip method: removes leading and trailing
whitespace. -/
def pstrip (s : String) : String :=
  ⟨((s.data.dropWhile isSpaceChar).reverse.dropWhile isSpaceChar).reverse⟩

/-- Embeds the Python lower method on the ASCII range, which covers every
stored boolean literal app.py compares with it. -/
def lowerChar (c : Char) : Char :=
  if 'A' ≤ c && c ≤ 'Z' then Char.ofNat (c.toNat + 32) else c

/-- Embeds the Python lower method on strings. -/
def lowerStr (s : String) : String := ⟨s.data.map lowerChar⟩

/-- Embeds the Python startswith method. -/
def pStartsWith (s t : String) : Bool := t.data.isPrefixOf s.data

/-- Clock reading, as produced by datetime.now() in app.py. -/
structure DateTime where
  year : Nat
  month : Nat
  day : Nat
  hour : Nat
  minute : Nat
  second : Nat
deriving DecidableEq

/-- Decimal digit character: 48 is the code of the zero digit. -/
def digitChar (n : Nat) : Char := Char.ofNat (48 + n)

/-- Two-digit zero-padded field, as printed by strftime for the month, day,
hour, minute and second directives used in app.py. -/
def pad2 (n : Nat) : String := ⟨[digitChar (n / 10), digitChar (n % 10)]⟩

/-- Four-digit year field, as printed by the strftime year directive for
years 1000-9999. -/
def pad4 (n : Nat) : String :=
  ⟨[digitChar (n / 1000), digitChar (n / 100 % 10), digitChar (n / 10 % 10), digitChar (n % 10)]⟩

/-- Embeds strftime("%Y-%m-%d %H:%M:%S") from app.py (update_user_received,
generate_pdf). -/
def formatTimestamp (t : DateTime) : String :=
  pad4 t.year ++ "-" ++ pad2 t.month ++ "-" ++ pad2 t.day ++ " " ++
    pad2 t.hour ++ ":" ++ pad2 t.minute ++ ":" ++ pad2 t.second

/-- Embeds strftime("%Y-%m-%d") from the generate_pdf footer. -/
def formatDate (t : DateTime) : String :=
  pad4 t.year ++ "-" ++ pad2 t.month ++ "-" ++ pad2 t.day

/-- Embeds strftime("%H:%M:%S") from the generate_pdf footer. -/
def formatTimeOfDay (t : DateTime) : String :=
  pad2 t.hour ++ ":" ++ pad2 t.minute ++ ":" ++ pad2 t.second

/-- Value of a decimal digit character, none for other characters. -/
def charDigit (c : Char) : Option Nat :=
  if '0' ≤ c ∧ c ≤ '9' then some (c.toNat - 48) else none

/-- Two decimal digit characters read as a number below 100. -/
def digits2 (a b : Char) : Option Nat :=
  match charDigit a, charDigit b with
  | some x, some y => some (x * 10 + y)
  | _, _ => none

/-- Four decimal digit characters read as a number below 10000. -/
def digits4 (a b c d : Char) : Option Nat :=
  match charDigit a, charDigit b, charDigit c, charDigit d with
  | some x, some y, some z, some w => some (x * 1000 + y * 100 + z * 10 + w)
  | _, _, _, _ => none

/-- Recognizer for the timestamp layout "YYYY-MM-DD HH:MM:SS" written by
app.py; it returns the denoted clock reading when the string is well
formed. -/
def parseTimestamp (s : String) : Option DateTime :=
  match s.data with
  | [y1, y2, y3, y4, c1, m1, m2, c2, d1, d2, c3, h1, h2, c4, n1, n2, c5, s1, s2] =>
    if c1 = '-' ∧ c2 = '-' ∧ c3 = ' ' ∧ c4 = ':' ∧ c5 = ':' then
      match digits4 y1 y2 y3 y4, digits2 m1 m2, digits2 d1 d2,
          digits2 h1 h2, digits2 n1 n2, digits2 s1 s2 with
      | some y, some mo, some d, some h, some mi, some se =>
        some ⟨y, mo, d, h, mi, se⟩
      | _, _, _, _, _, _ => none
    else none
  | _ => none

/-- Range constraints satisfied by every clock reading datetime.now() can
return (four-digit year, calendar month and day, wall-clock time). -/
def validDT (t : DateTime) : Prop :=
  1000 ≤ t.year ∧ t.year < 10000 ∧ 1 ≤ t.month ∧ t.month ≤ 12 ∧
    1 ≤ t.day ∧ t.day ≤ 31 ∧ t.hour < 24 ∧ t.minute < 60 ∧ t.second < 60

/-- Chronological (lexicographic) order on clock readings. -/
def dtLt (a b : DateTime) : Prop :=
  a.year < b.year ∨ (a.year = b.year ∧ (a.month < b.month ∨ (a.month = b.month ∧
    (a.day < b.day ∨ (a.day = b.day ∧ (a.hour < b.hour ∨ (a.hour = b.hour ∧
      (a.minute < b.minute ∨ (a.minute = b.minute ∧ a.second < b.second)))))))))

instance (t : DateTime) : Decidable (validDT t) := by
  unfold validDT; infer_instance

instance (a b : DateTime) : Decidable (dtLt a b) := by
  unfold dtLt; infer_instance

/-- Member row of a program user store, columns NationalID, FullName,
HasReceived, DateReceived of the per-program CSV in app.py. -/
structure Member where
  nationalID : String
  fullName : String
  hasReceived : String
  dateReceived : String
deriving DecidableEq

/-- Matching condition used by find_user, update_user_received and
add_user_to_program in app.py: stored id and query id compared after
stripping whitespace on both sides. -/
def memberMatches (u : Member) (national_id : String) : Bool :=
  pstrip u.nationalID == pstrip national_id

/-- Embeds find_user of app.py: first row whose stripped NationalID equals
the stripped query. -/
def find_user (users : List Member) (national_id : String) : Option Member :=
  users.find? (fun u => memberMatches u national_id)

/-- Embeds add_user_to_program of app.py. The Boolean is the success flag
it returns; the list is the member table as persisted after the call (on
a duplicate the function returns before writing, leaving the table as it
was). -/
def add_user_to_program (users : List Member) (national_id full_name : String) :
    Bool × List Member :=
  if users.any (fun u => memberMatches u national_id) then
    (false, users)
  else
    (true, users ++ [⟨national_id, full_name, "false", ""⟩])

/-- Embeds update_user_received of app.py: the first matching row gets
HasReceived set to the literal string true and DateReceived set to the
formatted current clock reading; the loop breaks after the first match,
and the whole table is rewritten. -/
def update_user_received (users : List Member) (national_id : String) (now : DateTime) :
    List Member :=
  match users with
  | [] => []
  | u :: rest =>
    if memberMatches u national_id then
      { u with hasReceived := "true", dateReceived := formatTimestamp now } :: rest
    else
      u :: update_user_received rest national_id now

/-- Program row of the system registry, columns EnglishName, ArabicName,
ShowInList in app.py. ShowInList is an Option because a registry file whose
header lacks that column yields Python dict rows without the key, and
app.py reads it with dict get defaults that differ between call sites. -/
structure Program where
  englishName : String
  arabicName : String
  showInList : Option String
deriving DecidableEq

/-- Embeds get_visible_programs of app.py: keeps rows whose ShowInList,
defaulted to the empty string when absent, lowercases to the literal
string true. -/
def get_visible_programs (programs : List Program) : List Program :=
  programs.filter (fun p => lowerStr (p.showInList.getD "") == "true")

/-- Embeds get_program_info of app.py: first row whose stripped
EnglishName equals the stripped query. -/
def get_program_info (programs : List Program) (english_name : String) : Option Program :=
  programs.find? (fun p => pstrip p.englishName == pstrip english_name)

/-- Embeds toggle_program of app.py: the first row whose EnglishName
equals the query exactly has its ShowInList replaced by the literal
string false if the stored value, defaulted to the literal string true
when absent, lowercases to true, and by the literal string true
otherwise; the loop breaks after the first match and the registry is
rewritten from the row list. -/
def toggle_program (programs : List Program) (english_name : String) : List Program :=
  match programs with
  | [] => []
  | p :: rest =>
    if p.englishName = english_name then
      let current := lowerStr (p.showInList.getD "true") == "true"
      { p with showInList := some (if current then "false" else "true") } :: rest
    else
      p :: toggle_program rest english_name

/-- ASCII letter test for the character class of the key pattern. -/
def isEngLetter (c : Char) : Bool :=
  ('a' ≤ c && c ≤ 'z') || ('A' ≤ c && c ≤ 'Z')

/-- Character class of the tail of the key pattern: letters, digits,
underscore, hyphen. -/
def isNameChar (c : Char) : Bool :=
  isEngLetter c || ('0' ≤ c && c ≤ '9') || c == '_' || c == '-'

/-- Language of the key pattern itself, written from the words of the
spec: one letter followed by letters, digits, underscores or hyphens,
covering the whole string. -/
def spec_key_pattern (cs : List Char) : Bool :=
  match cs with
  | [] => false
  | c :: rest => isEngLetter c && rest.all isNameChar

/-- Embeds validate_english_name of app.py, which calls re.match with the
key pattern anchored by a dollar. In the Python regex dialect an
unanchored-by-flags dollar also matches just before a newline that ends
the string, so the accepted language is the pattern language together
with every pattern word followed by one final newline. -/
def validate_english_name (name : String) : Bool :=
  spec_key_pattern name.data ||
    (match name.data.getLast? with
     | some c => c == '\n' && spec_key_pattern name.data.dropLast
     | none => false)

/-- Uploaded CSV row as produced by the Python DictReader: an association
list from header names to cell values. -/
abbrev Row := List (String × String)

/-- Dict get on an uploaded row: value of the first pair with the given
key, none when the key is absent. -/
def rowGet (row : Row) (k : String) : Option String :=
  (row.find? (fun p => p.1 == k)).map (fun p => p.2)

/-- Column-name probing of import_users_from_csv: the Python or-chain
returns the first value that is present and non-empty, and the empty
string when every alias misses. -/
def probe (row : Row) (keys : List String) : String :=
  match keys with
  | [] => ""
  | k :: rest =>
    match rowGet row k with
    | some v => if v = "" then probe row rest else v
    | none => probe row rest

/-- Ordered aliases probed for the identity column in app.py. -/
def idAliases : List String :=
  ["NationalID", "nationalid", "National ID", "رقم الهوية", "رقم_الهوية"]

/-- Ordered aliases probed for the name column in app.py. -/
def nameAliases : List String :=
  ["FullName", "fullname", "Full Name", "الاسم", "الاسم الكامل", "الاسم_الكامل"]

/-- Resolved identity of an uploaded row: first non-empty alias value,
stripped. -/
def resolveId (row : Row) : String := pstrip (probe row idAliases)

/-- Resolved full name of an uploaded row: first non-empty alias value,
stripped. -/
def resolveName (row : Row) : String := pstrip (probe row nameAliases)

/-- Well-formed row: both resolved fields non-empty, the Python truthiness
test guarding the import of a row. -/
def wfRow (row : Row) : Prop := resolveId row ≠ "" ∧ resolveName row ≠ ""

instance (row : Row) : Decidable (wfRow row) := by
  unfold wfRow; infer_instance

/-- Member record appended for an imported row. -/
def rowMember (row : Row) : Member := ⟨resolveId row, resolveName row, "false", ""⟩

/-- Loop state of import_users_from_csv: the in-memory member list, the
set of already seen stripped ids (as a list, membership-equivalent to the
Python set), and the two counters. -/
structure ImportState where
  users : List Member
  ids : List String
  imported : Nat
  skipped : Nat
deriving DecidableEq

/-- Body of the row loop of import_users_from_csv. -/
def importStep (st : ImportState) (row : Row) : ImportState :=
  let nid := resolveId row
  let fn := resolveName row
  if nid ≠ "" ∧ fn ≠ "" then
    if st.ids.contains nid then
      { st with skipped := st.skipped + 1 }
    else
      { users := st.users ++ [⟨nid, fn, "false", ""⟩], ids := nid :: st.ids,
        imported := st.imported + 1, skipped := st.skipped }
  else st

/-- Stripped ids of the rows already stored, the existing_ids set built
at the start of import_users_from_csv. -/
def existing_ids (users : List Member) : List String :=
  users.map (fun u => pstrip u.nationalID)

/-- Initial loop state of import_users_from_csv. -/
def initImport (users : List Member) : ImportState :=
  ⟨users, existing_ids users, 0, 0⟩

/-- Embeds the row-processing core of import_users_from_csv of app.py on
an already decoded and parsed sequence of rows. -/
def import_users_from_csv (users : List Member) (rows : List Row) : ImportState :=
  rows.foldl importStep (initImport users)

/-- Event stream feeding the import loop: some row for a row the
DictReader yields, none for an exception raised while decoding the bytes
or while parsing (the DictReader raises lazily, so an exception can occur
after some rows were already consumed). -/
abbrev RowStream := List (Option Row)

/-- Runs the loop of import_users_from_csv over an event stream, stopping
with none at the first exception event. -/
def runStream (st : ImportState) (stream : RowStream) : Option ImportState :=
  match stream with
  | [] => some st
  | none :: _ => none
  | some r :: rest => runStream (importStep st r) rest

/-- Embeds import_users_from_csv of app.py including its persistence
shape: the surrounding try block returns the failure flag on any
exception, and the single write of the whole table sits after the loop,
so the file keeps its prior contents unless every event succeeds. The
returned list is the file contents after the call. -/
def import_users_with_persist (file : List Member) (stream : RowStream) :
    Bool × List Member :=
  match runStream (initImport file) stream with
  | none => (false, file)
  | some st => (true, st.users)

/-- Drawing operation recorded while building the receipt document, one
constructor per canvas call kind used by generate_pdf. -/
inductive PdfOp where
  | textOp (s : String)
  | lineOp
  | imageOp
  | saveOp
deriving DecidableEq

/-- Embeds arabic_text of app.py: the reshaping pipeline is abstracted as
a shaping oracle, and the surrounding try block falls back to the raw
string when shaping fails. -/
def arabic_text (shape : String → Option String) (text : String) : String :=
  match shape text with
  | some r => r
  | none => text

/-- Embeds the signature block of generate_pdf: the guard requires a
non-empty value starting with the data-image scheme; inside the guard the
whole decode-composite-draw pipeline is abstracted as an oracle, and the
except branch draws the placeholder label instead. An input failing the
guard draws nothing at all in the signature region. -/
def signature_ops (shape : String → Option String) (decodeSig : String → Option Unit)
    (signature_data : String) : List PdfOp :=
  if signature_data ≠ "" ∧ pStartsWith signature_data "data:image" then
    match decodeSig signature_data with
    | some _ => [PdfOp.imageOp]
    | none => [PdfOp.textOp (arabic_text shape "[التوقيع محفوظ]")]
  else []

/-- Embeds the drawing sequence of generate_pdf of app.py as the ordered
list of canvas operations between canvas construction and save; the
trailing saveOp records the save call that completes the document. Each
strftime call reads the same model clock. The fallible construction and
save layer around this sequence is modelled by generate_pdf_run. -/
def generate_pdf (shape : String → Option String) (decodeSig : String → Option Unit)
    (programs : List Program) (program_name national_id full_name signature_data : String)
    (now : DateTime) : List PdfOp :=
  let arabic_program_name :=
    match get_program_info programs program_name with
    | some p => p.arabicName
    | none => program_name
  [PdfOp.textOp (arabic_text shape "إيصال استلام"),
   PdfOp.textOp (arabic_text shape ("البرنامج: " ++ arabic_program_name)),
   PdfOp.lineOp,
   PdfOp.textOp (arabic_text shape ("رقم الهوية: " ++ national_id)),
   PdfOp.textOp (arabic_text shape ("الاسم الكامل: " ++ full_name)),
   PdfOp.textOp (arabic_text shape ("تاريخ الاستلام: " ++ formatTimestamp now)),
   PdfOp.textOp (arabic_text shape "إقرار بالاستلام:"),
   PdfOp.textOp (arabic_text shape ("أقر أنا، " ++ full_name ++ "، بأنني قد استلمت المواد/الأغراض")),
   PdfOp.textOp (arabic_text shape ("من " ++ arabic_program_name ++ ".")),
   PdfOp.textOp (arabic_text shape "التوقيع:")]
  ++ signature_ops shape decodeSig signature_data
  ++ [PdfOp.lineOp,
      PdfOp.textOp (arabic_text shape "هذا إيصال رسمي"),
      PdfOp.textOp (arabic_text shape
        ("تم الإنشاء بتاريخ " ++ formatDate now ++ " الساعة " ++ formatTimeOfDay now)),
      PdfOp.saveOp]

/-- Embeds the fatal layer of generate_pdf: canvas construction and the
final save touch the file system and may raise (the spec allows the
whole operation to fail there, for example on an unwritable target
directory); the oracle records whether that layer succeeds, and on its
failure the exception propagates out of generate_pdf. Every step between
construction and save, the whole signature block included, raises
nothing: the try around the image pipeline swallows each decode or
compositing error. -/
def generate_pdf_run (canvasOk : Bool) (shape : String → Option String)
    (decodeSig : String → Option Unit) (programs : List Program)
    (program_name national_id full_name signature_data : String) (now : DateTime) :
    Except Unit (List PdfOp) :=
  if canvasOk then
    Except.ok (generate_pdf shape decodeSig programs program_name national_id full_name
      signature_data now)
  else Except.error ()

/-- Visibility predicate applied by get_visible_programs, the user-facing
visibility state of a stored program row. -/
def visibleFlag (p : Program) : Bool := lowerStr (p.showInList.getD "") == "true"

/-- Uploaded row carrying the canonical English headers. -/
def englishRow (nid fn : String) : Row := [("NationalID", nid), ("FullName", fn)]

/-- Uploaded row carrying Arabic header aliases for the same two logical
fields. -/
def arabicRow (nid fn : String) : Row := [("رقم الهوية", nid), ("الاسم", fn)]

/-- Shaping oracle on which the reshaping pipeline always fails, so
arabic_text falls back to the raw string. -/
def shapeRaw : String → Option String := fun _ => none

/-- Decoding oracle on which the image pipeline always fails. -/
def decodeNone : String → Option Unit := fun _ => none

/-- Well-formed uploaded row used to exhibit in-file duplicates. -/
def dupRow : Row := [("NationalID", "7"), ("FullName", "x")]

/-- Claim C3: with a nationalId already present (matching after stripping
whitespace), add_user_to_program fails, returning the failure flag, and
the member table it persists is exactly the table it read: same rows,
same order. -/
theorem add_user_duplicate_unchanged (users : List Member) (national_id full_name : String)
    (u : Member) (hu : u ∈ users) (hdup : pstrip u.nationalID = pstrip national_id) :
    add_user_to_program users national_id full_name = (false, users) := by
  have hany : users.any (fun v => memberMatches v national_id) = true :=
    List.any_eq_true.mpr ⟨u, hu, by simp [memberMatches, hdup]⟩
  simp [add_user_to_program, hany]

/-- Witness for claim C3 at a concrete store and id. -/
theorem add_user_duplicate_unchanged_witness :
    add_user_to_program [⟨"1", "a", "false", ""⟩] " 1 " "b" = (false, [⟨"1", "a", "false", ""⟩]) :=
  add_user_duplicate_unchanged [⟨"1", "a", "false", ""⟩] " 1 " "b"
    ⟨"1", "a", "false", ""⟩ (by decide) (by decide)

/-- Claim C5: adding a nationalId not yet present succeeds, and find_user
then returns the freshly stored record, carrying the given full name, the
literal false received flag and an empty received date. -/
theorem add_then_find_spec (users : List Member) (national_id full_name : String)
    (hnew : ∀ u ∈ users, memberMatches u national_id = false) :
    (add_user_to_program users national_id full_name).1 = true ∧
    find_user (add_user_to_program users national_id full_name).2 national_id =
      some ⟨national_id, full_name, "false", ""⟩ := by
  have hany : users.any (fun v => memberMatches v national_id) = false := by
    rw [List.any_eq_false]
    intro u hu
    simp [hnew u hu]
  have hnone : users.find? (fun v => memberMatches v national_id) = none :=
    List.find?_eq_none.mpr (fun u hu => by simp [hnew u hu])
  constructor
  · simp [add_user_to_program, hany]
  · have h2 : (add_user_to_program users national_id full_name).2 =
        users ++ [⟨national_id, full_name, "false", ""⟩] := by
      simp [add_user_to_program, hany]
    rw [h2, find_user, List.find?_append, hnone, Option.none_or]
    exact List.find?_cons_of_pos _ (by simp [memberMatches])

/-- Witness for claim C5 at a concrete store and pair. -/
theorem add_then_find_spec_witness :
    (add_user_to_program [⟨"1", "a", "false", ""⟩] "2" "Sara").1 = true ∧
    find_user (add_user_to_program [⟨"1", "a", "false", ""⟩] "2" "Sara").2 "2" =
      some ⟨"2", "Sara", "false", ""⟩ :=
  add_then_find_spec [⟨"1", "a", "false", ""⟩] "2" "Sara" (by decide)

/-- Counterexample to claim C8 as stated: the Python dollar anchor also
matches just before a newline that ends the string, so
validate_english_name accepts a string with a trailing newline that the
key pattern itself does not match. -/
theorem validate_english_name_trailing_newline :
    validate_english_name "abc\n" = true ∧ spec_key_pattern (String.data "abc\n") = false := by
  decide

/-- Claim C8 as amended: the concrete examples of the spec behave as
stated, and validate_english_name accepts exactly the words of the key
pattern together with every such word followed by one final newline. -/
theorem validate_english_name_spec :
    (validate_english_name "abc123" = true ∧ validate_english_name "a-b_c" = true ∧
     validate_english_name "123abc" = false ∧ validate_english_name "a b" = false ∧
     validate_english_name "" = false) ∧
    ∀ s : String, validate_english_name s = true ↔
      (spec_key_pattern s.data = true ∨
       ∃ w : List Char, s.data = w ++ ['\n'] ∧ spec_key_pattern w = true) := by
  refine ⟨by decide, fun s => ?_⟩
  rcases List.eq_nil_or_concat s.data with hnil | ⟨w, c, hcat⟩
  · rw [validate_english_name, hnil]
    simp
  · rw [List.concat_eq_append] at hcat
    rw [validate_english_name, hcat]
    rw [List.getLast?_concat, List.dropLast_concat]
    constructor
    · intro h
      rcases Bool.or_eq_true_iff.mp h with h1 | h2
      · exact Or.inl h1
      · obtain ⟨hc, hw⟩ := Bool.and_eq_true_iff.mp h2
        have hc' : c = '\n' := by simpa using hc
        exact Or.inr ⟨w, by rw [hc'], hw⟩
    · intro h
      rcases h with h1 | ⟨w', heq, hw'⟩
      · exact Bool.or_eq_true_iff.mpr (Or.inl h1)
      · obtain ⟨hw2, hc2⟩ := List.append_inj' heq rfl
        refine Bool.or_eq_true_iff.mpr (Or.inr (Bool.and_eq_true_iff.mpr ⟨?_, ?_⟩))
        · simp [List.cons.injEq] at hc2
          simp [hc2]
        · rw [hw2]; exact hw'

/-- Witness for claim C8: the amended characterization applied to the
concrete newline-terminated key. -/
theorem validate_english_name_spec_witness :
    validate_english_name "ab\n" = true :=
  (validate_english_name_spec.2 "ab\n").mpr (Or.inr ⟨['a', 'b'], by decide, by decide⟩)

/-- Helper: an exception event anywhere in the stream aborts the loop. -/
theorem runStream_err (stream : RowStream) (st : ImportState) (h : none ∈ stream) :
    runStream st stream = none := by
  induction stream generalizing st with
  | nil => simp at h
  | cons e rest ih =>
    match e with
    | none => rfl
    | some r =>
      have hr : none ∈ rest := by
        rcases List.mem_cons.mp h with h1 | h1
        · exact absurd h1.symm (by simp)
        · exact h1
      exact ih (importStep st r) hr

/-- Helper: an exception-free stream runs the loop over exactly its rows. -/
theorem runStream_ok (stream : RowStream) (st : ImportState) (h : none ∉ stream) :
    runStream st stream = some (List.foldl importStep st (stream.filterMap id)) := by
  induction stream generalizing st with
  | nil => rfl
  | cons e rest ih =>
    match e with
    | none => exact absurd (by simp) h
    | some r =>
      have hr : none ∉ rest := fun hmem => h (List.mem_cons.mpr (Or.inr hmem))
      simp only [runStream, List.filterMap_cons, id]
      rw [ih (importStep st r) hr]
      rfl

/-- Claim C9: when decoding or row parsing raises (an exception event in
the stream), import returns the failure flag and the persisted file is
exactly the file read, because the single write of the table sits after
the loop; when no exception occurs, the one write persists the fully
processed table. -/
theorem import_users_persist_atomic (file : List Member) (stream : RowStream) :
    (none ∈ stream → import_users_with_persist file stream = (false, file)) ∧
    (none ∉ stream → import_users_with_persist file stream =
      (true, (import_users_from_csv file (stream.filterMap id)).users)) := by
  constructor
  · intro h
    rw [import_users_with_persist, runStream_err stream (initImport file) h]
  · intro h
    rw [import_users_with_persist, runStream_ok stream (initImport file) h,
      import_users_from_csv]

/-- Witness for claim C9: a stream failing mid-iteration, after one row
was already consumed in memory, leaves the file untouched. -/
theorem import_users_persist_atomic_witness :
    import_users_with_persist [⟨"1", "a", "false", ""⟩] [some dupRow, none] =
      (false, [⟨"1", "a", "false", ""⟩]) :=
  (import_users_persist_atomic [⟨"1", "a", "false", ""⟩] [some dupRow, none]).1 (by decide)

/-- Helper: the identity column resolves to the same value under the
English header and under the Arabic alias. -/
theorem resolveId_english_arabic (nid fn : String) :
    resolveId (englishRow nid fn) = resolveId (arabicRow nid fn) := by
  by_cases h : nid = "" <;>
    simp [resolveId, probe, rowGet, englishRow, arabicRow, idAliases, h]

/-- Helper: the name column resolves to the same value under the English
header and under the Arabic alias. -/
theorem resolveName_english_arabic (nid fn : String) :
    resolveName (englishRow nid fn) = resolveName (arabicRow nid fn) := by
  by_cases h : fn = "" <;>
    simp [resolveName, probe, rowGet, englishRow, arabicRow, nameAliases, h]

/-- Helper: the import loop body only sees a row through its two resolved
fields, so relabeling a row from English to Arabic headers leaves every
step unchanged. -/
theorem importStep_english_arabic (st : ImportState) (nid fn : String) :
    importStep st (englishRow nid fn) = importStep st (arabicRow nid fn) := by
  simp only [importStep, resolveId_english_arabic, resolveName_english_arabic]

/-- Claim C7: on any member store, importing rows labeled with the
canonical English headers and importing the same logical rows labeled
with the Arabic aliases produce the same state: identical member records
and identical imported and skipped counts. -/
theorem import_header_aliases_equivalent (users : List Member)
    (pairs : List (String × String)) :
    import_users_from_csv users (pairs.map (fun p => englishRow p.1 p.2)) =
      import_users_from_csv users (pairs.map (fun p => arabicRow p.1 p.2)) := by
  rw [import_users_from_csv, import_users_from_csv, List.foldl_map, List.foldl_map]
  generalize initImport users = st
  induction pairs generalizing st with
  | nil => rfl
  | cons hd tl ih =>
    simp only [List.foldl_cons]
    rw [importStep_english_arabic]
    exact ih _

/-- Replacement value toggle_program stores for the row it matches. -/
def toggledValue (v : Option String) : String :=
  if lowerStr (v.getD "true") == "true" then "false" else "true"

/-- Helper: the stored literal false does not lowercase to true. -/
theorem lowerStr_false_beq : (lowerStr "false" == "true") = false := by decide

/-- Helper: the stored literal true lowercases to true. -/
theorem lowerStr_true_beq : (lowerStr "true" == "true") = true := by decide

/-- Helper: the empty string does not lowercase to true. -/
theorem lowerStr_empty_beq : (lowerStr "" == "true") = false := by decide

/-- Helper: toggle_program rewrites exactly the first row matching the
key, leaving every other row as read. -/
theorem toggle_program_first_match (pre post : List Program) (q : Program) (key : String)
    (hpre : ∀ r ∈ pre, r.englishName ≠ key) (hq : q.englishName = key) :
    toggle_program (pre ++ q :: post) key =
      pre ++ { q with showInList := some (toggledValue q.showInList) } :: post := by
  induction pre with
  | nil => simp [toggle_program, hq, toggledValue]
  | cons p rest ih =>
    have hne : p.englishName ≠ key := hpre p (by simp)
    simp only [List.cons_append, toggle_program, if_neg hne]
    exact congrArg (fun l => p :: l) (ih (fun r hr => hpre r (by simp [hr])))

/-- Helper: toggling a key matching no row leaves the registry rows
exactly as read, and the rewrite of the file therefore reproduces its
contents. -/
theorem toggle_program_noop (regs : List Program) (key : String)
    (h : ∀ p ∈ regs, p.englishName ≠ key) :
    toggle_program regs key = regs := by
  induction regs with
  | nil => rfl
  | cons p rest ih =>
    simp only [toggle_program, if_neg (h p (by simp))]
    rw [ih (fun r hr => h r (by simp [hr]))]

/-- Helper: on a registry whose rows all carry a ShowInList value, two
toggles of the same key restore the visibility of every row. -/
theorem toggle_toggle_visible (regs : List Program) (key : String)
    (hflags : ∀ p ∈ regs, p.showInList ≠ none) :
    (toggle_program (toggle_program regs key) key).map visibleFlag = regs.map visibleFlag := by
  induction regs with
  | nil => rfl
  | cons p rest ih =>
    by_cases hk : p.englishName = key
    · obtain ⟨s, hs⟩ : ∃ s, p.showInList = some s := by
        cases h : p.showInList with
        | none => exact absurd h (hflags p (by simp))
        | some s => exact ⟨s, rfl⟩
      rcases Bool.eq_false_or_eq_true (lowerStr s == "true") with hc | hc
      · have h1 : toggle_program (p :: rest) key =
            { p with showInList := some "false" } :: rest := by
          simp [toggle_program, hk, hs, hc]
        have h2 : toggle_program ({ p with showInList := some "false" } :: rest) key =
            { p with showInList := some "true" } :: rest := by
          simp [toggle_program, hk, lowerStr_false_beq]
        rw [h1, h2]
        simp [visibleFlag, hs, hc, lowerStr_true_beq]
      · have h1 : toggle_program (p :: rest) key =
            { p with showInList := some "true" } :: rest := by
          simp [toggle_program, hk, hs, hc]
        have h2 : toggle_program ({ p with showInList := some "true" } :: rest) key =
            { p with showInList := some "false" } :: rest := by
          simp [toggle_program, hk, lowerStr_true_beq]
        rw [h1, h2]
        simp [visibleFlag, hs, hc, lowerStr_false_beq]
    · have h1 : toggle_program (p :: rest) key = p :: toggle_program rest key := by
        simp [toggle_program, hk]
      rw [h1]
      have h2 : toggle_program (p :: toggle_program rest key) key =
          p :: toggle_program (toggle_program rest key) key := by
        simp [toggle_program, hk]
      rw [h2, List.map_cons, List.map_cons, ih (fun r hr => hflags r (by simp [hr]))]

/-- Counterexample to claim C6 as stated: on a row whose ShowInList value
is missing, the program is excluded from the visible list, yet after two
toggles its flag is the literal true and get_visible_programs includes
it, so its visibility state is not restored. -/
theorem toggle_missing_flag_counterexample :
    get_visible_programs [⟨"p", "a", none⟩] = [] ∧
    get_visible_programs (toggle_program (toggle_program [⟨"p", "a", none⟩] "p") "p") =
      [⟨"p", "a", some "true"⟩] := by
  decide

/-- Claim C6 as amended: on a registry whose rows all carry a ShowInList
value, toggling any key twice restores the visibility state of every row
as read by get_visible_programs, and toggling a key present on no row
leaves the registry rows, and hence the rewritten registry file, exactly
as they were. -/
theorem toggle_program_visibility_roundtrip (regs : List Program) (key : String)
    (hflags : ∀ p ∈ regs, p.showInList ≠ none) :
    (toggle_program (toggle_program regs key) key).map visibleFlag = regs.map visibleFlag ∧
    ((∀ p ∈ regs, p.englishName ≠ key) → toggle_program regs key = regs) :=
  ⟨toggle_toggle_visible regs key hflags, toggle_program_noop regs key⟩

/-- Witness for claim C6 at a concrete registry. -/
theorem toggle_program_visibility_roundtrip_witness :
    (toggle_program (toggle_program [⟨"p", "a", some "true"⟩] "p") "p").map visibleFlag =
      [(⟨"p", "a", some "true"⟩ : Program)].map visibleFlag :=
  (toggle_program_visibility_roundtrip [⟨"p", "a", some "true"⟩] "p" (by decide)).1

/-- Counterexample to claim C10 as stated: on a row whose ShowInList
value is present but empty, toggle_program treats the row as not visible
and writes the literal true, not the literal false the claim predicts. -/
theorem toggle_empty_flag_counterexample :
    toggle_program [⟨"p", "a", some ""⟩] "p" = [⟨"p", "a", some "true"⟩] ∧
    toggle_program [⟨"p", "a", some ""⟩] "p" ≠ [⟨"p", "a", some "false"⟩] := by
  decide

/-- Claim C10 as amended: get_visible_programs excludes every row whose
ShowInList value is missing or empty, while toggle_program defaults a
missing value to visible and writes the literal false, but treats an
empty value as not visible and writes the literal true — the two
operations apply opposite defaults to an absent flag. -/
theorem visibility_flag_defaults :
    (∀ (regs : List Program) (p : Program),
       p.showInList = none ∨ p.showInList = some "" → p ∉ get_visible_programs regs) ∧
    (∀ (pre post : List Program) (q : Program) (key : String),
       q.englishName = key → (∀ r ∈ pre, r.englishName ≠ key) →
       (q.showInList = none →
         toggle_program (pre ++ q :: post) key =
           pre ++ { q with showInList := some "false" } :: post) ∧
       (q.showInList = some "" →
         toggle_program (pre ++ q :: post) key =
           pre ++ { q with showInList := some "true" } :: post)) := by
  constructor
  · rintro regs p (h | h) hmem
    · have hp := (List.mem_filter.mp hmem).2
      rw [h] at hp
      simp [lowerStr_empty_beq] at hp
    · have hp := (List.mem_filter.mp hmem).2
      rw [h] at hp
      simp [lowerStr_empty_beq] at hp
  · intro pre post q key hq hpre
    constructor
    · intro h
      rw [toggle_program_first_match pre post q key hpre hq]
      simp [toggledValue, h, lowerStr_true_beq]
    · intro h
      rw [toggle_program_first_match pre post q key hpre hq]
      simp [toggledValue, h, lowerStr_empty_beq]

/-- Helper: string append acts as list append on the underlying
characters. -/
theorem data_append (a b : String) : (a ++ b).data = a.data ++ b.data := rfl

/-- Helper: reading back the character of a digit below ten. -/
theorem charDigit_digitChar (k : Nat) (h : k < 10) : charDigit (digitChar k) = some k := by
  interval_cases k <;> rfl

/-- Helper: on every clock reading datetime.now() can produce, the
timestamp app.py writes parses back to exactly that reading, so it is
well formed in the documented layout. -/
theorem parse_format (t : DateTime) (h : validDT t) :
    parseTimestamp (formatTimestamp t) = some t := by
  obtain ⟨y, mo, d, hh, mi, se⟩ := t
  simp only [validDT] at h
  obtain ⟨h1, h2, h3, h4, h5, h6, h7, h8, h9⟩ := h
  have hdata : (formatTimestamp ⟨y, mo, d, hh, mi, se⟩).data =
      [digitChar (y / 1000), digitChar (y / 100 % 10), digitChar (y / 10 % 10),
       digitChar (y % 10), '-', digitChar (mo / 10), digitChar (mo % 10), '-',
       digitChar (d / 10), digitChar (d % 10), ' ', digitChar (hh / 10), digitChar (hh % 10),
       ':', digitChar (mi / 10), digitChar (mi % 10), ':', digitChar (se / 10),
       digitChar (se % 10)] := by
    simp [formatTimestamp, pad4, pad2, data_append]
  rw [parseTimestamp, hdata]
  simp only []
  rw [if_pos (by simp)]
  rw [digits4, digits2, digits2, digits2, digits2, digits2]
  rw [charDigit_digitChar _ (by omega), charDigit_digitChar _ (by omega),
      charDigit_digitChar _ (by omega), charDigit_digitChar _ (by omega),
      charDigit_digitChar _ (by omega), charDigit_digitChar _ (by omega),
      charDigit_digitChar _ (by omega), charDigit_digitChar _ (by omega),
      charDigit_digitChar _ (by omega), charDigit_digitChar _ (by omega),
      charDigit_digitChar _ (by omega), charDigit_digitChar _ (by omega),
      charDigit_digitChar _ (by omega), charDigit_digitChar _ (by omega)]
  simp only [Option.some.injEq, DateTime.mk.injEq]
  have d1 : y / 10 / 10 = y / 100 := by rw [Nat.div_div_eq_div_mul]
  have d2 : y / 100 / 10 = y / 1000 := by rw [Nat.div_div_eq_div_mul]
  refine ⟨?_, ?_, ?_, ?_, ?_, ?_⟩ <;> omega

/-- Helper: the empty string is not a well-formed timestamp. -/
theorem parseTimestamp_empty : parseTimestamp "" = none := rfl

/-- Helper: the written timestamp is never empty. -/
theorem formatTimestamp_ne_empty (t : DateTime) (h : validDT t) : formatTimestamp t ≠ "" := by
  intro heq
  have := parse_format t h
  rw [heq, parseTimestamp_empty] at this
  exact Option.noConfusion this

/-- Helper: distinct valid clock readings produce distinct timestamp
strings. -/
theorem formatTimestamp_inj (t1 t2 : DateTime) (h1 : validDT t1) (h2 : validDT t2)
    (heq : formatTimestamp t1 = formatTimestamp t2) : t1 = t2 := by
  have e1 := parse_format t1 h1
  have e2 := parse_format t2 h2
  rw [heq, e2] at e1
  exact (Option.some.injEq _ _ ▸ e1).symm

/-- Helper: a chronologically earlier reading is a different reading. -/
theorem dtLt_ne (a b : DateTime) (h : dtLt a b) : a ≠ b := by
  rintro rfl
  rw [dtLt] at h
  omega

/-- Helper: updating a store in which the id is found updates exactly the
found row, and find_user then returns it with the stamped fields. -/
theorem find_user_update (users : List Member) (national_id : String) (u : Member)
    (now : DateTime) (h : find_user users national_id = some u) :
    find_user (update_user_received users national_id now) national_id =
      some { u with hasReceived := "true", dateReceived := formatTimestamp now } := by
  induction users with
  | nil => simp [find_user] at h
  | cons v rest ih =>
    by_cases hv : memberMatches v national_id
    · rw [find_user, @List.find?_cons_of_pos _ (fun w => memberMatches w national_id) v rest hv] at h
      obtain rfl : v = u := Option.some.inj h
      rw [update_user_received, if_pos hv, find_user]
      rw [@List.find?_cons_of_pos _ (fun w => memberMatches w national_id) _ rest
        (by simpa [memberMatches] using hv)]
    · rw [find_user, @List.find?_cons_of_neg _ (fun w => memberMatches w national_id) v rest hv] at h
      rw [update_user_received, if_neg hv, find_user,
        @List.find?_cons_of_neg _ (fun w => memberMatches w national_id) v _ hv]
      exact ih h

/-- Helper: when no stored row matches the id, the rewrite reproduces the
rows exactly as read. -/
theorem update_user_received_noop (users : List Member) (national_id : String)
    (now : DateTime) (h : ∀ u ∈ users, memberMatches u national_id = false) :
    update_user_received users national_id now = users := by
  induction users with
  | nil => rfl
  | cons v rest ih =>
    rw [update_user_received, if_neg (by simp [h v (by simp)]), ih (fun u hu => h u (by simp [hu]))]

/-- Claim C4: marking an existing unreceived member received stamps the
row with the literal true flag and the formatted current clock reading,
a non-empty well-formed timestamp; a second call at a chronologically
later reading overwrites the date with the later, different, timestamp;
and a call whose id matches no stored row leaves the member records
unchanged. -/
theorem update_user_received_spec
    (users : List Member) (national_id : String) (u : Member) (t1 t2 : DateTime)
    (hfind : find_user users national_id = some u)
    (hunrec : lowerStr u.hasReceived ≠ "true")
    (ht1 : validDT t1) (ht2 : validDT t2) (hlt : dtLt t1 t2) :
    (∃ v, find_user (update_user_received users national_id t1) national_id = some v ∧
       v.hasReceived = "true" ∧ v.dateReceived = formatTimestamp t1 ∧
       v.dateReceived ≠ "" ∧ parseTimestamp v.dateReceived = some t1) ∧
    (∃ w, find_user (update_user_received (update_user_received users national_id t1)
         national_id t2) national_id = some w ∧
       w.hasReceived = "true" ∧ w.dateReceived = formatTimestamp t2 ∧
       parseTimestamp w.dateReceived = some t2 ∧ w.dateReceived ≠ formatTimestamp t1) ∧
    (∀ others : List Member, (∀ x ∈ others, memberMatches x national_id = false) →
       update_user_received others national_id t1 = others) := by
  have hu1 := find_user_update users national_id u t1 hfind
  have hu2 := find_user_update _ national_id _ t2 hu1
  refine ⟨⟨_, hu1, rfl, rfl, formatTimestamp_ne_empty t1 ht1, parse_format t1 ht1⟩,
          ⟨_, hu2, rfl, rfl, parse_format t2 ht2, ?_⟩,
          fun others h => update_user_received_noop others national_id t1 h⟩
  intro heq
  exact dtLt_ne t1 t2 hlt (formatTimestamp_inj t2 t1 ht2 ht1 heq).symm

/-- Witness for claim C4 at a concrete store, member and pair of clock
readings. -/
theorem update_user_received_spec_witness :
    ∃ v, find_user (update_user_received [⟨"5", "bob", "false", ""⟩] "5"
        ⟨2024, 5, 6, 7, 8, 9⟩) "5" = some v ∧
      v.hasReceived = "true" ∧ v.dateReceived = formatTimestamp ⟨2024, 5, 6, 7, 8, 9⟩ ∧
      v.dateReceived ≠ "" ∧ parseTimestamp v.dateReceived = some ⟨2024, 5, 6, 7, 8, 9⟩ :=
  (update_user_received_spec [⟨"5", "bob", "false", ""⟩] "5" ⟨"5", "bob", "false", ""⟩
    ⟨2024, 5, 6, 7, 8, 9⟩ ⟨2024, 5, 6, 7, 8, 10⟩ (by decide) (by decide) (by decide)
    (by decide) (by decide)).1

/-- Helper: characterization of the import loop from any starting state:
rows colliding with an already seen id only bump the skipped counter,
every other well-formed row is appended once, provided the fresh ids are
pairwise distinct. -/
theorem importStep_foldl_spec (rows : List Row) (st : ImportState)
    (hwf : ∀ r ∈ rows, wfRow r)
    (hnodup : ((rows.filter (fun r => !st.ids.contains (resolveId r))).map resolveId).Nodup) :
    rows.foldl importStep st =
      { users := st.users ++ (rows.filter (fun r => !st.ids.contains (resolveId r))).map rowMember,
        ids := ((rows.filter (fun r => !st.ids.contains (resolveId r))).map resolveId).reverse ++ st.ids,
        imported := st.imported + (rows.filter (fun r => !st.ids.contains (resolveId r))).length,
        skipped := st.skipped + (rows.filter (fun r => st.ids.contains (resolveId r))).length } := by
  induction rows generalizing st with
  | nil => simp
  | cons r rest ih =>
    obtain ⟨hr1, hr2⟩ := hwf r (by simp)
    by_cases hmem : resolveId r ∈ st.ids
    · -- collision with an already seen id
      have hstep : importStep st r = { st with skipped := st.skipped + 1 } := by
        simp [importStep, hr1, hr2, hmem]
      have hfp : (r :: rest).filter (fun x => !st.ids.contains (resolveId x)) =
          rest.filter (fun x => !st.ids.contains (resolveId x)) :=
        List.filter_cons_of_neg (by simp [hmem])
      have hfq : (r :: rest).filter (fun x => st.ids.contains (resolveId x)) =
          r :: rest.filter (fun x => st.ids.contains (resolveId x)) :=
        List.filter_cons_of_pos (by simp [hmem])
      rw [hfp] at hnodup
      rw [List.foldl_cons, hstep,
        ih { st with skipped := st.skipped + 1 } (fun x hx => hwf x (by simp [hx])) hnodup,
        hfp, hfq]
      simp only [ImportState.mk.injEq, List.length_cons]
      refine ⟨?_, ?_, ?_, ?_⟩ <;> first | trivial | omega
    · -- fresh id
      have hstep : importStep st r =
          { users := st.users ++ [rowMember r], ids := resolveId r :: st.ids,
            imported := st.imported + 1, skipped := st.skipped } := by
        simp [importStep, hr1, hr2, hmem, rowMember]
      have hfp : (r :: rest).filter (fun x => !st.ids.contains (resolveId x)) =
          r :: rest.filter (fun x => !st.ids.contains (resolveId x)) :=
        List.filter_cons_of_pos (by simp [hmem])
      have hfq : (r :: rest).filter (fun x => st.ids.contains (resolveId x)) =
          rest.filter (fun x => st.ids.contains (resolveId x)) :=
        List.filter_cons_of_neg (by simp [hmem])
      rw [hfp, List.map_cons] at hnodup
      obtain ⟨hhead, htail⟩ := List.nodup_cons.mp hnodup
      have hcong : ∀ x ∈ rest,
          (!(resolveId r :: st.ids).contains (resolveId x)) =
            (!st.ids.contains (resolveId x)) := by
        intro x hx
        by_cases hcx : resolveId x ∈ st.ids
        · simp [List.contains_cons, hcx]
        · have hxf : x ∈ rest.filter (fun z => !st.ids.contains (resolveId z)) :=
            List.mem_filter.mpr ⟨hx, by simp [hcx]⟩
          have hne : resolveId x ≠ resolveId r := by
            intro he
            exact hhead (List.mem_map.mpr ⟨x, hxf, he⟩)
          simp [List.contains_cons, hcx, hne]
      have hfc : rest.filter (fun x => !(resolveId r :: st.ids).contains (resolveId x)) =
          rest.filter (fun x => !st.ids.contains (resolveId x)) := List.filter_congr hcong
      have hcong2 : ∀ x ∈ rest,
          ((resolveId r :: st.ids).contains (resolveId x)) = (st.ids.contains (resolveId x)) := by
        intro x hx
        have h1 := hcong x hx
        cases h2 : (resolveId r :: st.ids).contains (resolveId x) <;>
          cases h3 : st.ids.contains (resolveId x) <;> simp_all
      have hfc2 : rest.filter (fun x => (resolveId r :: st.ids).contains (resolveId x)) =
          rest.filter (fun x => st.ids.contains (resolveId x)) := List.filter_congr hcong2
      rw [List.foldl_cons, hstep,
        ih _ (fun x hx => hwf x (by simp [hx])) (by rw [hfc]; exact htail)]
      rw [hfc, hfc2, hfp, hfq]
      simp only [ImportState.mk.injEq, List.map_cons, List.length_cons, List.reverse_cons,
        List.append_assoc, List.cons_append, List.nil_append]
      refine ⟨?_, ?_, ?_, ?_⟩ <;> first | trivial | omega

/-- Counterexample to claim C2 as stated: a file with two identical
well-formed rows, both new with respect to an empty store, has two new
rows in the sense of the claim, yet the code imports one and skips the
other, and the resulting store has one member, not two. -/
theorem import_duplicate_rows_counterexample :
    (import_users_from_csv [] [dupRow, dupRow]).imported = 1 ∧
    (import_users_from_csv [] [dupRow, dupRow]).skipped = 1 ∧
    ([dupRow, dupRow].filter
      (fun r => !(existing_ids []).contains (resolveId r))).length = 2 ∧
    ([dupRow, dupRow].filter
      (fun r => (existing_ids []).contains (resolveId r))).length = 0 ∧
    (∀ r ∈ [dupRow, dupRow], wfRow r) ∧
    (import_users_from_csv [] [dupRow, dupRow]).users.length = 1 := by
  decide

/-- Claim C2 as amended: on a file of well-formed rows whose ids new to
the store are pairwise distinct, import returns imported equal to the
number of new rows and skipped equal to the number of colliding rows,
and the persisted store is the original table followed by one member per
new row, each with the literal false flag and an empty date. -/
theorem import_users_from_csv_counts (users : List Member) (rows : List Row)
    (hwf : ∀ r ∈ rows, wfRow r)
    (hnodup : ((rows.filter
      (fun r => !(existing_ids users).contains (resolveId r))).map resolveId).Nodup) :
    (import_users_from_csv users rows).imported =
      (rows.filter (fun r => !(existing_ids users).contains (resolveId r))).length ∧
    (import_users_from_csv users rows).skipped =
      (rows.filter (fun r => (existing_ids users).contains (resolveId r))).length ∧
    (import_users_from_csv users rows).users =
      users ++ (rows.filter (fun r => !(existing_ids users).contains (resolveId r))).map rowMember ∧
    (import_users_from_csv users rows).users.length =
      users.length + (rows.filter (fun r => !(existing_ids users).contains (resolveId r))).length ∧
    ∀ m ∈ (rows.filter (fun r => !(existing_ids users).contains (resolveId r))).map rowMember,
      m.hasReceived = "false" ∧ m.dateReceived = "" := by
  have h := importStep_foldl_spec rows (initImport users) hwf hnodup
  rw [import_users_from_csv, h]
  refine ⟨by simp [initImport], by simp [initImport], by simp [initImport],
    by simp [initImport, List.length_append], ?_⟩
  intro m hm
  obtain ⟨r, hr, rfl⟩ := List.mem_map.mp hm
  exact ⟨rfl, rfl⟩

/-- Witness for claim C2 at a concrete store with one new and one
colliding row. -/
theorem import_users_from_csv_counts_witness :
    (import_users_from_csv [⟨"1", "a", "false", ""⟩]
        [[("NationalID", "2"), ("FullName", "b")],
         [("NationalID", "1"), ("FullName", "c")]]).imported =
      ([[("NationalID", "2"), ("FullName", "b")],
        [("NationalID", "1"), ("FullName", "c")]].filter
        (fun r => !(existing_ids [⟨"1", "a", "false", ""⟩]).contains (resolveId r))).length :=
  (import_users_from_csv_counts [⟨"1", "a", "false", ""⟩] _ (by decide) (by decide)).1

/-- Witness for claim C10: a missing flag row toggled at the head of the
registry receives the literal false. -/
theorem visibility_flag_defaults_witness :
    toggle_program ([] ++ (⟨"p", "a", none⟩ : Program) :: []) "p" =
      [] ++ ({ (⟨"p", "a", (none : Option String)⟩ : Program) with showInList := some "false" } :: []) :=
  ((visibility_flag_defaults.2 [] [] ⟨"p", "a", none⟩ "p" rfl (by simp)).1) rfl

/-- Counterexample to claim C1 as stated: with an empty signatureDataUrl
the guard of the signature block fails, so the document contains neither
an image nor the placeholder label, while the claim predicts the
placeholder. The oracles are concrete: shaping always falls back to the
raw string and decoding always fails. -/
theorem generate_pdf_empty_signature_no_placeholder :
    PdfOp.textOp "[التوقيع محفوظ]" ∉
      generate_pdf shapeRaw decodeNone [] "books" "100200300" "Sara Ali" "" ⟨2024, 1, 1, 0, 0, 0⟩ ∧
    PdfOp.imageOp ∉
      generate_pdf shapeRaw decodeNone [] "books" "100200300" "Sara Ali" "" ⟨2024, 1, 1, 0, 0, 0⟩ ∧
    (generate_pdf shapeRaw decodeNone [] "books" "100200300" "Sara Ali" ""
      ⟨2024, 1, 1, 0, 0, 0⟩).getLast? = some PdfOp.saveOp := by
  decide

/-- Claim C1 as amended: the call fails exactly when the fatal canvas
construction and save layer fails, independent of signatureDataUrl, so
no exception escapes the signature-embedding step; the produced document
is complete, the save being its last operation and the title drawn; the
signature region holds an image exactly when signatureDataUrl is
non-empty, starts with the data-image scheme and decodes, and holds the
placeholder label exactly when it is non-empty, starts with the scheme
and fails to decode; an empty value, or one without the scheme, leaves
the region empty: neither image nor placeholder. -/
theorem generate_pdf_signature_best_effort
    (canvasOk : Bool) (shape : String → Option String) (decodeSig : String → Option Unit)
    (programs : List Program) (program_name national_id full_name signature_data : String)
    (now : DateTime) :
    (canvasOk = true →
      generate_pdf_run canvasOk shape decodeSig programs program_name national_id full_name
          signature_data now =
        Except.ok (generate_pdf shape decodeSig programs program_name national_id full_name
          signature_data now)) ∧
    (canvasOk = false →
      generate_pdf_run canvasOk shape decodeSig programs program_name national_id full_name
          signature_data now = Except.error ()) ∧
    (generate_pdf shape decodeSig programs program_name national_id full_name
        signature_data now).getLast? = some PdfOp.saveOp ∧
    PdfOp.textOp (arabic_text shape "إيصال استلام") ∈
      generate_pdf shape decodeSig programs program_name national_id full_name
        signature_data now ∧
    (PdfOp.imageOp ∈ generate_pdf shape decodeSig programs program_name national_id full_name
        signature_data now ↔
      signature_data ≠ "" ∧ pStartsWith signature_data "data:image" = true ∧
        decodeSig signature_data ≠ none) ∧
    (signature_ops shape decodeSig signature_data =
        [PdfOp.textOp (arabic_text shape "[التوقيع محفوظ]")] ↔
      signature_data ≠ "" ∧ pStartsWith signature_data "data:image" = true ∧
        decodeSig signature_data = none) ∧
    (signature_data = "" ∨ pStartsWith signature_data "data:image" = false →
      signature_ops shape decodeSig signature_data = [] ∧
      PdfOp.imageOp ∉ generate_pdf shape decodeSig programs program_name national_id full_name
        signature_data now) := by
  have hlast : ∀ (l m : List PdfOp) (x y z a : PdfOp),
      (l ++ m ++ [x, y, z, a]).getLast? = some a := by
    intro l m x y z a
    have h4 : [x, y, z, a] = [x, y, z] ++ [a] := rfl
    rw [h4, ← List.append_assoc, List.getLast?_concat]
  have hdoc : PdfOp.imageOp ∈ generate_pdf shape decodeSig programs program_name national_id
      full_name signature_data now ↔
      PdfOp.imageOp ∈ signature_ops shape decodeSig signature_data := by
    simp [generate_pdf, List.mem_append]
  have hsig_iff : PdfOp.imageOp ∈ signature_ops shape decodeSig signature_data ↔
      signature_data ≠ "" ∧ pStartsWith signature_data "data:image" = true ∧
        decodeSig signature_data ≠ none := by
    rw [signature_ops]
    by_cases hg : signature_data ≠ "" ∧ pStartsWith signature_data "data:image" = true
    · rw [if_pos hg]
      cases hdec : decodeSig signature_data with
      | none =>
        constructor
        · intro h; simp at h
        · rintro ⟨_, _, hne⟩; exact absurd rfl hne
      | some u =>
        constructor
        · intro _; exact ⟨hg.1, hg.2, fun h => Option.noConfusion h⟩
        · intro _; simp
    · rw [if_neg hg]
      constructor
      · intro h; simp at h
      · rintro ⟨h1, h2, _⟩; exact absurd ⟨h1, h2⟩ hg
  have hph : signature_ops shape decodeSig signature_data =
      [PdfOp.textOp (arabic_text shape "[التوقيع محفوظ]")] ↔
      signature_data ≠ "" ∧ pStartsWith signature_data "data:image" = true ∧
        decodeSig signature_data = none := by
    rw [signature_ops]
    by_cases hg : signature_data ≠ "" ∧ pStartsWith signature_data "data:image" = true
    · rw [if_pos hg]
      cases hdec : decodeSig signature_data with
      | none => simp [hg.1, hg.2]
      | some u =>
        constructor
        · intro h; exact absurd h (by simp)
        · rintro ⟨_, _, hnone⟩; exact Option.noConfusion hnone
    · rw [if_neg hg]
      constructor
      · intro h; exact absurd h (by simp)
      · rintro ⟨h1, h2, _⟩; exact absurd ⟨h1, h2⟩ hg
  have hempty : signature_data = "" ∨ pStartsWith signature_data "data:image" = false →
      signature_ops shape decodeSig signature_data = [] := by
    intro h
    have hg : ¬(signature_data ≠ "" ∧ pStartsWith signature_data "data:image" = true) := by
      rcases h with h | h
      · rintro ⟨h1, _⟩; exact h1 h
      · rintro ⟨_, h2⟩; rw [h] at h2; exact Bool.noConfusion h2
    rw [signature_ops, if_neg hg]
  refine ⟨fun h => by simp [generate_pdf_run, h], fun h => by simp [generate_pdf_run, h],
    ?_, by simp [generate_pdf], hdoc.trans hsig_iff, hph, ?_⟩
  · simp only [generate_pdf]
    exact hlast _ _ _ _ _ _
  · intro h
    refine ⟨hempty h, ?_⟩
    intro hmem
    have := hdoc.mp hmem
    rw [hempty h] at this
    simp at this

/-- Witness for claim C1 at concrete oracles and inputs: a failing fatal
layer fails the call; an undecodable data-image value yields the
placeholder in the signature region of a completed document; a malformed
value without the data-image scheme leaves the region empty. -/
theorem generate_pdf_signature_best_effort_witness :
    generate_pdf_run false shapeRaw decodeNone [] "p" "1" "n" "sig" ⟨2024, 1, 1, 0, 0, 0⟩ =
      Except.error () ∧
    signature_ops shapeRaw decodeNone "data:image/png;base64,%%" =
      [PdfOp.textOp "[التوقيع محفوظ]"] ∧
    signature_ops shapeRaw decodeNone "hello" = [] ∧
    (generate_pdf shapeRaw decodeNone [] "p" "1" "n" "hello"
      ⟨2024, 1, 1, 0, 0, 0⟩).getLast? = some PdfOp.saveOp := by
  have h1 := generate_pdf_signature_best_effort false shapeRaw decodeNone [] "p" "1" "n"
    "sig" ⟨2024, 1, 1, 0, 0, 0⟩
  have h2 := generate_pdf_signature_best_effort true shapeRaw decodeNone [] "p" "1" "n"
    "data:image/png;base64,%%" ⟨2024, 1, 1, 0, 0, 0⟩
  have h3 := generate_pdf_signature_best_effort true shapeRaw decodeNone [] "p" "1" "n"
    "hello" ⟨2024, 1, 1, 0, 0, 0⟩
  refine ⟨h1.2.1 rfl, ?_, (h3.2.2.2.2.2.2 (Or.inr (by decide))).1, h3.2.2.1⟩
  exact h2.2.2.2.2.2.1.mpr ⟨by decide, by decide, rfl⟩
